import Mathlib

/-!
Shallow embedding of the MeridianAlgo/Utils repository (selected scripts),
translated from the Python sources:
  * `UTILS - Technical Indicators/technical_indicators.py`
  * `UTILS - Order Execution Simulator/order_execution_simulator.py`
  * `UTILS - Options Chain Simulator/options_chain_simulator.py`
  * `UTILS - Portfolio Tracker/portfolio_tracker.py`
  * `UTILS - Dividend Tracker/dividend_tracker.py`

Python floats are modelled as exact numbers (`ℚ` for the bookkeeping
scripts, `ℝ` for the Black-Scholes formulas, whose transcendental
functions have no rational counterpart).  Python operations that can
raise (`math.log`, `math.sqrt`, division, `dict[k]` on a missing key)
are modelled with `Option`, `none` standing for a raised exception.
-/

/-! ## Technical indicators (`technical_indicators.py`) -/

/-- `sma(prices, window)` from `technical_indicators.py`:
`[sum(prices[i-window+1:i+1])/window if i >= window-1 else None
  for i in range(len(prices))]`.
The Python guard `i >= window-1` over ints is rendered as `window ≤ i + 1`
over `ℕ` (equivalent for every `window ≥ 0`), and the slice
`prices[i-window+1:i+1]` (whose bounds satisfy `0 ≤ i-window+1` and
`i+1 ≤ len(prices)` whenever the guard holds) as drop-then-take.
For `window = 0` Python raises `ZeroDivisionError`; the claims only
quantify over `window ≥ 1`. -/
def sma (prices : List ℚ) (window : ℕ) : List (Option ℚ) :=
  (List.range prices.length).map (fun i =>
    if window ≤ i + 1 then
      some ((((prices.drop (i + 1 - window)).take window).sum) / window)
    else none)

/-- The recursion building `ema_vals` in `ema` of `technical_indicators.py`:
each new value is `price * k + ema_vals[-1] * (1 - k)`. -/
def emaCore (k : ℚ) (prev : ℚ) : List ℚ → List ℚ
  | [] => []
  | p :: ps => (p * k + prev * (1 - k)) :: emaCore (k) (p * k + prev * (1 - k)) ps

/-- `ema(prices, window)` from `technical_indicators.py`: the first value
seeds the recursion, and entries with index `< window - 1` are masked to
`None` (`window ≤ i + 1` renders the Python int guard `i >= window-1`). -/
def ema (prices : List ℚ) (window : ℕ) : List (Option ℚ) :=
  match prices with
  | [] => []
  | p :: ps =>
    let k : ℚ := 2 / (window + 1)
    let vals := p :: emaCore k p ps
    (vals.enum).map (fun v => if window ≤ v.1 + 1 then some v.2 else none)

/-- The `gains` list built by `rsi` in `technical_indicators.py`:
a leading `0`, then `max(prices[i] - prices[i-1], 0)` for `i = 1 .. len-1`. -/
def rsiGains (prices : List ℚ) : List ℚ :=
  0 :: (List.range (prices.length - 1)).map
    (fun j => max (prices.getD (j + 1) 0 - prices.getD j 0) 0)

/-- The `losses` list built by `rsi` in `technical_indicators.py`:
a leading `0`, then `-min(prices[i] - prices[i-1], 0)` for `i = 1 .. len-1`. -/
def rsiLosses (prices : List ℚ) : List ℚ :=
  0 :: (List.range (prices.length - 1)).map
    (fun j => -(min (prices.getD (j + 1) 0 - prices.getD j 0) 0))

/-- `rsi(prices, period)` from `technical_indicators.py`: `period` leading
`None`s, then for `i = period .. len(prices)-1` the value computed from the
window `gains[i-period+1:i+1]` and `losses[i-period+1:i+1]` (slices of
length `period`, rendered as drop-then-take; their bounds are in range
whenever `1 ≤ period ≤ i < len(prices)`). -/
def rsi (prices : List ℚ) (period : ℕ) : List (Option ℚ) :=
  let gains := rsiGains prices
  let losses := rsiLosses prices
  List.replicate period none ++
    (List.range (prices.length - period)).map (fun j =>
      let i := period + j
      let avg_gain := ((gains.drop (i + 1 - period)).take period).sum / period
      let avg_loss := ((losses.drop (i + 1 - period)).take period).sum / period
      if avg_loss = 0 then some 100
      else some (100 - 100 / (1 + avg_gain / avg_loss)))

/-- The `zip`-based combination used twice in `macd` of
`technical_indicators.py`: subtract elementwise, `None` if either side is. -/
def optSub (a b : Option ℚ) : Option ℚ :=
  match a, b with
  | some x, some y => some (x - y)
  | _, _ => none

/-- `macd(prices, fast, slow, signal)` from `technical_indicators.py`. -/
def macd (prices : List ℚ) (fast : ℕ := 12) (slow : ℕ := 26) (signal : ℕ := 9) :
    List (Option ℚ) × List (Option ℚ) × List (Option ℚ) :=
  let ema_fast := ema prices fast
  let ema_slow := ema prices slow
  let macd_line := List.zipWith optSub ema_fast ema_slow
  let signal_line := ema (macd_line.filterMap id) signal
  let signal_line := List.replicate (macd_line.length - signal_line.length) none ++ signal_line
  let hist := List.zipWith optSub macd_line signal_line
  (macd_line, signal_line, hist)

/-! ## Order execution simulator (`order_execution_simulator.py`)

Python `dict`s keyed by strings are modelled as insertion-ordered
association lists.  `dictGet d k` is `d.get(k, 0)`, `dictSet` is
`d[k] = v` (updating in place, appending a fresh key at the end),
`hasKey` is `k in d`. -/

/-- `d.get(k, 0)` on a Python dict. -/
def dictGet : List (String × ℚ) → String → ℚ
  | [], _ => 0
  | (k, v) :: rest, a => if k = a then v else dictGet rest a

/-- `d[k] = v` on a Python dict: replaces in place, else appends. -/
def dictSet : List (String × ℚ) → String → ℚ → List (String × ℚ)
  | [], a, x => [(a, x)]
  | (k, v) :: rest, a, x =>
    if k = a then (a, x) :: rest else (k, v) :: dictSet rest a x

/-- `k in d` on a Python dict. -/
def hasKey : List (String × ℚ) → String → Bool
  | [], _ => false
  | (k, _) :: rest, a => k = a || hasKey rest a

/-- The `Trade` class of `order_execution_simulator.py`. -/
structure Trade where
  asset : String
  qty : ℚ
  price : ℚ
  side : String
  order_type : String
deriving DecidableEq

/-- The `Portfolio` class of `order_execution_simulator.py`
(fields of `__init__`). -/
structure Portfolio where
  cash : ℚ
  holdings : List (String × ℚ)
  trades : List Trade
  avg_cost : List (String × ℚ)
deriving DecidableEq

/-- `Portfolio()` — the constructor defaults: cash 10000, empty dicts,
no trades. -/
def Portfolio.init : Portfolio := ⟨10000, [], [], []⟩

/-- `Portfolio.execute_order(asset, qty, price, side, order_type)`.
The result's first component models the Python outcome: `some b` when the
method returns `b`, `none` when it raises; the second component is the
state of the object afterwards (Python mutates `self` in statement order,
so on the `KeyError` raised by `self.holdings[asset] -= qty` when `asset`
is not a key, the preceding `self.cash += qty * price` has already
happened).  Any `side` other than `'buy'` takes the `else` (sell) branch,
exactly as in the source. -/
def Portfolio.executeOrder (p : Portfolio) (asset : String) (qty price : ℚ)
    (side : String) (order_type : String) : Option Bool × Portfolio :=
  if side = "buy" then
    let cost := qty * price
    if p.cash < cost then (some false, p)
    else
      let holdings' := dictSet p.holdings asset (dictGet p.holdings asset + qty)
      let prev_qty := dictGet holdings' asset - qty
      let prev_cost := dictGet p.avg_cost asset * prev_qty
      let avg' := dictSet p.avg_cost asset
        (if 0 < prev_qty + qty then (prev_cost + cost) / (prev_qty + qty) else price)
      (some true,
        { cash := p.cash - cost, holdings := holdings',
          trades := p.trades ++ [⟨asset, qty, price, side, order_type⟩],
          avg_cost := avg' })
  else
    if dictGet p.holdings asset < qty then (some false, p)
    else if hasKey p.holdings asset = false then
      (none, { p with cash := p.cash + qty * price })
    else
      let newQty := dictGet p.holdings asset - qty
      let holdings' := dictSet p.holdings asset newQty
      let avg' := if newQty = 0 then dictSet p.avg_cost asset 0 else p.avg_cost
      (some true,
        { cash := p.cash + qty * price, holdings := holdings',
          trades := p.trades ++ [⟨asset, qty, price, side, order_type⟩],
          avg_cost := avg' })

/-! ## Options chain simulator (`options_chain_simulator.py`)

The arithmetic is over `ℝ`.  Partial Python operations are wrapped in
`Option`: `a / b` raises `ZeroDivisionError` when `b == 0`, `math.log x`
raises `ValueError` when `x <= 0`, `math.sqrt x` raises `ValueError`
when `x < 0`.  Calls whose argument is a positive constant
(`math.sqrt(2.0)`, `math.sqrt(2*math.pi)`) and divisions by a provably
nonzero constant (`/ 2`, `/ 365`, `/ 100`) never raise and are embedded
totally. -/

/-- Python float division (`ZeroDivisionError` on a zero divisor). -/
noncomputable def pyDiv (a b : ℝ) : Option ℝ := if b = 0 then none else some (a / b)

/-- `math.log` (`ValueError` on a nonpositive argument). -/
noncomputable def pyLog (x : ℝ) : Option ℝ := if x ≤ 0 then none else some (Real.log x)

/-- `math.sqrt` (`ValueError` on a negative argument). -/
noncomputable def pySqrt (x : ℝ) : Option ℝ := if x < 0 then none else some (Real.sqrt x)

/-- The error function computed by C's `math.erf`:
`erf x = 2/√π · ∫ t in 0..x, exp (-t²)` (the library function is external
to the repository; this is its mathematical definition). -/
noncomputable def erf (x : ℝ) : ℝ :=
  2 / Real.sqrt Real.pi * ∫ t in (0:ℝ)..x, Real.exp (-t ^ 2)

/-- `norm_cdf(x)` from `options_chain_simulator.py`:
`(1.0 + math.erf(x / math.sqrt(2.0))) / 2.0`.  `math.sqrt(2.0)` is a
positive constant and the division by it never raises. -/
noncomputable def norm_cdf (x : ℝ) : ℝ := (1 + erf (x / Real.sqrt 2)) / 2

/-- `black_scholes_price(S, K, T, r, sigma, option_type)` from
`options_chain_simulator.py`; `none` models a raised exception in
`S / K`, `math.log`, `math.sqrt` or the division by `sigma * math.sqrt(T)`.
Any `option_type` other than `'call'` takes the put branch, as in the
source. -/
noncomputable def black_scholes_price (S K T r sigma : ℝ) (option_type : String) :
    Option (ℝ × ℝ × ℝ) :=
  (pyDiv S K).bind fun ratio =>
  (pyLog ratio).bind fun lg =>
  (pySqrt T).bind fun sqT =>
  (pyDiv (lg + (r + 0.5 * sigma ^ 2) * T) (sigma * sqT)).bind fun d1 =>
  let d2 := d1 - sigma * sqT
  let price :=
    if option_type = "call" then
      S * norm_cdf d1 - K * Real.exp (-r * T) * norm_cdf d2
    else
      K * Real.exp (-r * T) * norm_cdf (-d2) - S * norm_cdf (-d1)
  some (price, d1, d2)

/-- The dictionary returned by `black_scholes_greeks`. -/
structure Greeks where
  price : ℝ
  delta : ℝ
  gamma : ℝ
  theta : ℝ
  vega : ℝ
  rho : ℝ

/-- `black_scholes_greeks(S, K, T, r, sigma, option_type)` from
`options_chain_simulator.py`.  `nd1` divides by the positive constant
`math.sqrt(2*math.pi)`; the divisions by `2 * math.sqrt(T)` (in `theta`)
and by `S * sigma * math.sqrt(T)` (in `gamma`) can raise and go through
`pyDiv`; `/ 365` and `/ 100` never raise. -/
noncomputable def black_scholes_greeks (S K T r sigma : ℝ) (option_type : String) :
    Option Greeks :=
  (black_scholes_price S K T r sigma option_type).bind fun pdd =>
  let price := pdd.1
  let d1 := pdd.2.1
  let d2 := pdd.2.2
  let nd1 := Real.exp (-d1 ^ 2 / 2) / Real.sqrt (2 * Real.pi)
  (pySqrt T).bind fun sqT =>
  (pyDiv (-S * nd1 * sigma) (2 * sqT)).bind fun thetaNum =>
  (pyDiv nd1 (S * sigma * sqT)).bind fun gamma =>
  let vega := S * nd1 * sqT / 100
  if option_type = "call" then
    let delta := norm_cdf d1
    let theta := (thetaNum - r * K * Real.exp (-r * T) * norm_cdf d2) / 365
    let rho := K * T * Real.exp (-r * T) * norm_cdf d2 / 100
    some ⟨price, delta, gamma, theta, vega, rho⟩
  else
    let delta := -norm_cdf (-d1)
    let theta := (thetaNum + r * K * Real.exp (-r * T) * norm_cdf (-d2)) / 365
    let rho := -K * T * Real.exp (-r * T) * norm_cdf (-d2) / 100
    some ⟨price, delta, gamma, theta, vega, rho⟩

/-- One requested order (the arguments `place_order` passes to
`execute_order`). -/
structure Order where
  asset : String
  qty : ℚ
  price : ℚ
  side : String
  order_type : String
deriving DecidableEq

/-- Running a sequence of `execute_order` calls on a portfolio.  A raised
exception (`none` outcome) propagates: the remaining calls do not run and
the partially mutated state is final. -/
def runOrders (p : Portfolio) : List Order → Portfolio
  | [] => p
  | o :: os =>
    match p.executeOrder o.asset o.qty o.price o.side o.order_type with
    | (some _, p') => runOrders p' os
    | (none, p') => p'

/-! ## `input_float` (identical in `portfolio_tracker.py` and
`order_execution_simulator.py`)

The console is a list of lines; each line is abstracted to the result of
Python's builtin `float()` on it: `some v` for a line parseable as a
float (of value `v`), `none` for a line that raises `ValueError`.
`input_float` returns the first parseable line's value and re-prompts past
every earlier unparseable one; on an exhausted stream `input()` raises
`EOFError` and the function never returns a value (modelled `none`). -/
def input_float : List (Option ℚ) → Option ℚ
  | [] => none
  | some v :: _ => some v
  | none :: rest => input_float rest

/-! ## Persistence (`portfolio_tracker.py`, `order_execution_simulator.py`,
`dividend_tracker.py`)

The file system is a map from filenames to the decoded JSON contents of
the file (`none` = the file does not exist, so `os.path.exists` is the
`Option` test); JSON serialization round-trips these records, so a saved
value is stored as is. -/

/-- Python `str.strip()` on a line of input: drop whitespace from both
ends (written structurally on the character list so that it evaluates by
kernel reduction). -/
def pyStrip (s : String) : String :=
  ⟨((s.data.dropWhile Char.isWhitespace).reverse.dropWhile Char.isWhitespace).reverse⟩

/-- The `Holding` class of `portfolio_tracker.py` (its `__init__`
uppercases the name). -/
structure Holding where
  name : String
  quantity : ℚ
  avg_cost : ℚ
deriving DecidableEq

/-- The dict shape `Holding.to_dict` writes and `Holding.from_dict`
reads. -/
structure HoldingDict where
  name : String
  quantity : ℚ
  avg_cost : ℚ
deriving DecidableEq

/-- `Holding(name, quantity, avg_cost)` — the constructor uppercases the
ticker. -/
def Holding.mk' (name : String) (quantity avg_cost : ℚ) : Holding :=
  ⟨name.toUpper, quantity, avg_cost⟩

/-- `Holding.to_dict`. -/
def Holding.toDict (h : Holding) : HoldingDict := ⟨h.name, h.quantity, h.avg_cost⟩

/-- `Holding.from_dict`. -/
def Holding.fromDict (d : HoldingDict) : Holding := Holding.mk' d.name d.quantity d.avg_cost

/-- `load_portfolio` of `portfolio_tracker.py`, after the filename prompt:
a missing file prints `File not found.` and yields `[]`; otherwise the
decoded JSON list is mapped through `Holding.from_dict`. -/
def load_portfolio (fs : String → Option (List HoldingDict)) (fname : String) :
    List Holding :=
  match fs fname with
  | none => []
  | some data => data.map Holding.fromDict

/-- `save_portfolio` of `portfolio_tracker.py`: the first input line picks
the filename (`input(...).strip() or PORTFOLIO_FILE`, so the default
`portfolio.json` only when the stripped line is empty), and the
serialized portfolio is written there.  Returns the updated file system
and the chosen filename; `none` models `EOFError` on an exhausted
stream. -/
def save_portfolio (inputs : List String) (fs : String → Option (List HoldingDict))
    (portfolio : List Holding) :
    Option ((String → Option (List HoldingDict)) × String) :=
  match inputs with
  | [] => none
  | line :: _ =>
    let fname := if pyStrip line = "" then "portfolio.json" else pyStrip line
    some (fun k => if k = fname then some (portfolio.map Holding.toDict) else fs k, fname)

/-- The dict shape `Portfolio.to_dict` writes; `from_dict` tolerates a
missing `avg_cost` key (`d.get('avg_cost', {})`), hence the `Option`. -/
structure SimData where
  cash : ℚ
  holdings : List (String × ℚ)
  avg_cost : Option (List (String × ℚ))
  trades : List Trade
deriving DecidableEq

/-- `Portfolio.to_dict`. -/
def Portfolio.toDict (p : Portfolio) : SimData :=
  ⟨p.cash, p.holdings, some p.avg_cost, p.trades⟩

/-- `Portfolio.from_dict`. -/
def Portfolio.fromDict (d : SimData) : Portfolio :=
  { cash := d.cash, holdings := d.holdings, trades := d.trades,
    avg_cost := d.avg_cost.getD [] }

/-- `load` of `order_execution_simulator.py`, after the filename prompt:
a missing file prints `File not found.` and yields a fresh `Portfolio()`. -/
def loadSim (fs : String → Option SimData) (fname : String) : Portfolio :=
  match fs fname with
  | none => Portfolio.init
  | some d => Portfolio.fromDict d

/-- `save` of `order_execution_simulator.py`: the first input line picks
the filename (default `sim_portfolio.json` when the stripped line is
empty); `none` models `EOFError`. -/
def saveSim (inputs : List String) (fs : String → Option SimData) (p : Portfolio) :
    Option ((String → Option SimData) × String) :=
  match inputs with
  | [] => none
  | line :: _ =>
    let fname := if pyStrip line = "" then "sim_portfolio.json" else pyStrip line
    some (fun k => if k = fname then some p.toDict else fs k, fname)

/-- The `Dividend` class of `dividend_tracker.py` (its `to_dict` is
`self.__dict__`, so the record serializes as itself). -/
structure Dividend where
  ticker : String
  ex_date : String
  pay_date : String
  amount : ℚ
  shares : ℚ
deriving DecidableEq

/-- `save_dividends` of `dividend_tracker.py`: always writes to the
module constant `DIVIDENDS_FILE = 'dividends.json'`; no user input is
consulted. -/
def save_dividends (fs : String → Option (List Dividend)) (dividends : List Dividend) :
    String → Option (List Dividend) :=
  fun k => if k = "dividends.json" then some dividends else fs k

/-! ## The console `main` loops (`order_execution_simulator.py`,
`technical_indicators.py`)

The console input is a list of lines; the output is a trace of print
events (`Msg`), one per `print` site, carrying the data the source
formats.  `main` returns `some trace` on normal termination (reaching
`break`) and `none` when an uncaught exception ends the process
(`EOFError` from `input()` on an exhausted stream, `ValueError` from a
bare `float()`, the `KeyError` of `execute_order`).  Python's builtins
`float()` and `int()` are external to the repository and are passed in as
parameters `parseF` / `parseI` (`none` = `ValueError`).  The recursion is
fueled; `main` supplies `inputs.length + 1` fuel, which cannot run out
because every loop iteration consumes at least the choice line. -/

/-- One print event. -/
inductive Msg where
  | welcome
  | menu
  | line (s : String)
  | cashLine (c : ℚ)
  | header (s : String)
  | holdingLine (asset : String) (qty cost : ℚ)
  | pnlLine (v : ℚ)
  | valueLine (v : ℚ)
  | tradeLine (t : Trade)
  | savedTo (fname : String)
  | loadedFrom (fname : String)
  | loadedPrices (n : ℕ) (fname : String)
  | errorLoading (fname : String)
  | plot (label : String) (vals : List (Option ℚ))
deriving DecidableEq

/-- `input_float` reading concrete lines: value of the first line
`float()` accepts, with an `Invalid input.` message per rejected line;
`none` on `EOFError`. -/
def inputFloatLines (parseF : String → Option ℚ) :
    List String → Option (ℚ × List Msg × List String)
  | [] => none
  | s :: rest =>
    match parseF s with
    | some v => some (v, [], rest)
    | none =>
      match inputFloatLines parseF rest with
      | none => none
      | some (v, ms, r) =>
        some (v, Msg.line "Invalid input. Please enter a number." :: ms, r)

/-- `input_int` of `technical_indicators.py`, reading concrete lines. -/
def inputIntLines (parseI : String → Option ℤ) :
    List String → Option (ℤ × List Msg × List String)
  | [] => none
  | s :: rest =>
    match parseI s with
    | some v => some (v, [], rest)
    | none =>
      match inputIntLines parseI rest with
      | none => none
      | some (v, ms, r) =>
        some (v, Msg.line "Invalid input. Please enter an integer." :: ms, r)

/-- `Portfolio.realized_pnl`. -/
def realizedPnl (p : Portfolio) : ℚ :=
  p.trades.foldl
    (fun acc t =>
      if t.side = "sell" then acc + (t.price - dictGet p.avg_cost t.asset) * t.qty
      else acc) 0

/-- `place_order(portfolio)` of `order_execution_simulator.py`: reads the
side, asset, quantity (via `input_float`), order type and price, then
calls `execute_order`; the latter's prints are reconstructed from its
outcome and the side.  `none` models an uncaught exception. -/
def placeOrder (parseF : String → Option ℚ) (inputs : List String) (p : Portfolio) :
    Option (List Msg × Portfolio × List String) :=
  match inputs with
  | [] => none
  | sideLine :: rest =>
    let side := (pyStrip sideLine).toLower
    if side = "buy" ∨ side = "sell" then
      match rest with
      | [] => none
      | assetLine :: rest2 =>
        let asset := (pyStrip assetLine).toUpper
        match inputFloatLines parseF rest2 with
        | none => none
        | some (qty, ms1, rest3) =>
          match rest3 with
          | [] => none
          | otLine :: rest4 =>
            let ot := (pyStrip otLine).toLower
            if ot = "market" ∨ ot = "limit" then
              match inputFloatLines parseF rest4 with
              | none => none
              | some (price, ms2, rest5) =>
                match p.executeOrder asset qty price side ot with
                | (none, _) => none
                | (some true, p') =>
                  some (ms1 ++ ms2 ++ [Msg.line "Order executed! Portfolio updated."],
                    p', rest5)
                | (some false, p') =>
                  some (ms1 ++ ms2 ++
                    [Msg.line (if side = "buy" then "Not enough cash."
                      else "Not enough holdings to sell.")], p', rest5)
            else some (ms1 ++ [Msg.line "Invalid order type."], p, rest4)
    else some ([Msg.line "Invalid side."], p, rest)

/-- The loop inside `Portfolio.portfolio_value`: one `input_float` price
prompt per asset held with positive quantity, in dict order. -/
def pvLoop (parseF : String → Option ℚ) :
    List (String × ℚ) → ℚ → List String → Option (ℚ × List Msg × List String)
  | [], acc, ins => some (acc, [], ins)
  | (_asset, q) :: rest, acc, ins =>
    if 0 < q then
      match inputFloatLines parseF ins with
      | none => none
      | some (price, ms, ins') =>
        match pvLoop parseF rest (acc + q * price) ins' with
        | none => none
        | some (v, ms2, ins'') => some (v, ms ++ ms2, ins'')
    else pvLoop parseF rest acc ins

/-- `view_portfolio(portfolio)` of `order_execution_simulator.py`: cash,
header, the positive holdings, realized P&L, then the total value (whose
computation prompts for prices). -/
def viewPortfolio (parseF : String → Option ℚ) (inputs : List String) (p : Portfolio) :
    Option (List Msg × List String) :=
  match pvLoop parseF p.holdings p.cash inputs with
  | none => none
  | some (v, pvMsgs, rest) =>
    some ([Msg.cashLine p.cash, Msg.header "Asset Qty Avg Cost"] ++
      (p.holdings.filter (fun kv => 0 < kv.2)).map
        (fun kv => Msg.holdingLine kv.1 kv.2 (dictGet p.avg_cost kv.1)) ++
      [Msg.pnlLine (realizedPnl p)] ++ pvMsgs ++ [Msg.valueLine v], rest)

/-- `view_trades(portfolio)`. -/
def viewTradesMsgs (p : Portfolio) : List Msg :=
  [Msg.line "Trade History:", Msg.header "Side Asset Qty Price Type"] ++
    p.trades.map Msg.tradeLine

/-- `load()` of `order_execution_simulator.py` as called from `main`:
reads the filename line, then loads (missing file prints
`File not found.` and yields a fresh `Portfolio()`). -/
def loadAction (inputs : List String) (fs : String → Option SimData) :
    Option (List Msg × Portfolio × List String) :=
  match inputs with
  | [] => none
  | line :: rest =>
    let fname := if pyStrip line = "" then "sim_portfolio.json" else pyStrip line
    match fs fname with
    | none => some ([Msg.line "File not found."], Portfolio.init, rest)
    | some d => some ([Msg.loadedFrom fname], Portfolio.fromDict d, rest)

/-- The `while True` loop of `main` in `order_execution_simulator.py`:
print the menu, read the choice (stripped), dispatch. -/
def simMainLoop (parseF : String → Option ℚ) :
    ℕ → List String → (String → Option SimData) → Portfolio → List Msg →
    Option (List Msg)
  | 0, _, _, _, _ => none
  | fuel + 1, inputs, fs, p, acc =>
    match inputs with
    | [] => none
    | choice :: rest =>
      let acc := acc ++ [Msg.menu]
      let c := pyStrip choice
      if c = "1" then
        match placeOrder parseF rest p with
        | none => none
        | some (ms, p', rest') => simMainLoop parseF fuel rest' fs p' (acc ++ ms)
      else if c = "2" then
        match viewPortfolio parseF rest p with
        | none => none
        | some (ms, rest') => simMainLoop parseF fuel rest' fs p (acc ++ ms)
      else if c = "3" then
        simMainLoop parseF fuel rest fs p (acc ++ viewTradesMsgs p)
      else if c = "4" then
        match rest with
        | [] => none
        | _ :: rs =>
          match saveSim rest fs p with
          | none => none
          | some (fs', fname) =>
            simMainLoop parseF fuel rs fs' p (acc ++ [Msg.savedTo fname])
      else if c = "5" then
        match loadAction rest fs with
        | none => none
        | some (ms, p', rest') => simMainLoop parseF fuel rest' fs p' (acc ++ ms)
      else if c = "6" then
        some (acc ++ [Msg.line "Goodbye!"])
      else
        simMainLoop parseF fuel rest fs p
          (acc ++ [Msg.line "Invalid choice. Please try again."])

/-- `main()` of `order_execution_simulator.py`: welcome banner, a fresh
`Portfolio()`, then the menu loop. -/
def simMain (parseF : String → Option ℚ) (inputs : List String)
    (fs : String → Option SimData) : Option (List Msg) :=
  simMainLoop parseF (inputs.length + 1) inputs fs Portfolio.init [Msg.welcome]

/-- `input_prices()` of `technical_indicators.py`:
`[float(x.strip()) for x in s.split(',') if x.strip()]`; a piece
`float()` rejects raises `ValueError` out of `main` (`none`). -/
def inputPricesAction (parseF : String → Option ℚ) (inputs : List String) :
    Option (List ℚ × List String) :=
  match inputs with
  | [] => none
  | s :: rest =>
    match ((s.splitOn ",").filter (fun x => ¬ pyStrip x = "")).mapM
        (fun x => parseF (pyStrip x)) with
    | none => none
    | some ps => some (ps, rest)

/-- `load_prices_csv()` of `technical_indicators.py`: the file is a list
of rows of cells; cells `float()` rejects are skipped; the enclosing
`try` turns a missing file into an error message with no prices. -/
def loadPricesCsv (parseF : String → Option ℚ) (inputs : List String)
    (fscsv : String → Option (List (List String))) :
    Option (List ℚ × List Msg × List String) :=
  match inputs with
  | [] => none
  | line :: rest =>
    let fname := pyStrip line
    match fscsv fname with
    | none => some ([], [Msg.errorLoading fname], rest)
    | some rows =>
      let prices := rows.foldr (fun row acc => row.filterMap parseF ++ acc) []
      some (prices, [Msg.loadedPrices prices.length fname], rest)

/-- The `while True` loop of `main` in `technical_indicators.py`.
The indicator calls are embedded for positive windows/periods (the `ℕ`
arguments of `sma`/`ema`/`rsi`); a nonpositive entered value — on which
Python either raises `ZeroDivisionError` (`window = 0`, `window = -1` in
`ema`, `period = 0` in `rsi`) or indexes slices from the sequence end —
is conservatively modelled as abnormal termination, outside every claim's
domain. -/
def tiMainLoop (parseF : String → Option ℚ) (parseI : String → Option ℤ) :
    ℕ → List String → (String → Option (List (List String))) → List ℚ →
    List Msg → Option (List Msg)
  | 0, _, _, _, _ => none
  | fuel + 1, inputs, fscsv, prices, acc =>
    match inputs with
    | [] => none
    | choice :: rest =>
      let acc := acc ++ [Msg.menu]
      let c := pyStrip choice
      if c = "1" then
        match inputPricesAction parseF rest with
        | none => none
        | some (ps, rest') => tiMainLoop parseF parseI fuel rest' fscsv ps acc
      else if c = "2" then
        match loadPricesCsv parseF rest fscsv with
        | none => none
        | some (ps, ms, rest') => tiMainLoop parseF parseI fuel rest' fscsv ps (acc ++ ms)
      else if c = "3" then
        if prices = [] then
          tiMainLoop parseF parseI fuel rest fscsv prices
            (acc ++ [Msg.line "No prices loaded."])
        else
          match inputIntLines parseI rest with
          | none => none
          | some (w, ms, rest') =>
            if w ≤ 0 then none
            else
              tiMainLoop parseF parseI fuel rest' fscsv prices
                (acc ++ ms ++ [Msg.plot ("SMA(" ++ toString w ++ ")") (sma prices w.toNat)])
      else if c = "4" then
        if prices = [] then
          tiMainLoop parseF parseI fuel rest fscsv prices
            (acc ++ [Msg.line "No prices loaded."])
        else
          match inputIntLines parseI rest with
          | none => none
          | some (w, ms, rest') =>
            if w ≤ 0 then none
            else
              tiMainLoop parseF parseI fuel rest' fscsv prices
                (acc ++ ms ++ [Msg.plot ("EMA(" ++ toString w ++ ")") (ema prices w.toNat)])
      else if c = "5" then
        if prices = [] then
          tiMainLoop parseF parseI fuel rest fscsv prices
            (acc ++ [Msg.line "No prices loaded."])
        else
          match inputIntLines parseI rest with
          | none => none
          | some (w, ms, rest') =>
            if w ≤ 0 then none
            else
              tiMainLoop parseF parseI fuel rest' fscsv prices
                (acc ++ ms ++ [Msg.plot ("RSI(" ++ toString w ++ ")") (rsi prices w.toNat)])
      else if c = "6" then
        if prices = [] then
          tiMainLoop parseF parseI fuel rest fscsv prices
            (acc ++ [Msg.line "No prices loaded."])
        else
          let m := macd prices
          tiMainLoop parseF parseI fuel rest fscsv prices
            (acc ++ [Msg.plot "MACD Line" m.1, Msg.plot "Signal Line" m.2.1,
              Msg.plot "Histogram" m.2.2])
      else if c = "7" then
        some (acc ++ [Msg.line "Goodbye!"])
      else
        tiMainLoop parseF parseI fuel rest fscsv prices
          (acc ++ [Msg.line "Invalid choice. Please try again."])

/-- `main()` of `technical_indicators.py`: welcome banner, `prices = []`,
then the menu loop. -/
def tiMain (parseF : String → Option ℚ) (parseI : String → Option ℤ)
    (inputs : List String) (fscsv : String → Option (List (List String))) :
    Option (List Msg) :=
  tiMainLoop parseF parseI (inputs.length + 1) inputs fscsv [] [Msg.welcome]

/-! ## Helper lemmas -/

/-- The sum of the slice `l[a : a+w]` is the sum of the entries
`l[a+j]` for `j < w`. -/
lemma slice_sum (l : List ℚ) (a w : ℕ) (h : a + w ≤ l.length) :
    ((l.drop a).take w).sum = ∑ j ∈ Finset.range w, l.getD (a + j) 0 := by
  induction w generalizing a with
  | zero => simp
  | succ n ih =>
    have ha : a < l.length := by omega
    rw [List.drop_eq_getElem_cons ha, List.take_succ_cons, List.sum_cons,
      ih (a + 1) (by omega), Finset.sum_range_succ']
    have h0 : l.getD (a + 0) 0 = l[a] := by
      rw [List.getD_eq_getElem?_getD]
      norm_num
      rw [List.getElem?_eq_getElem ha]
      rfl
    have hshift : ∀ j, a + 1 + j = a + (j + 1) := by omega
    simp only [hshift, h0]
    ring

/-! ## Claim theorems -/

/-- C3: for every price list and window `w ≥ 1`, `sma(prices, w)` has the
length of `prices`; its `i`-th entry is `None` for `i < w - 1` and the
arithmetic mean of the last `w` prices `prices[i-w+1] .. prices[i]`
for `i ≥ w - 1`. -/
theorem sma_spec (prices : List ℚ) (w : ℕ) (hw : 1 ≤ w) :
    (sma prices w).length = prices.length ∧
    ∀ i, i < prices.length →
      (i < w - 1 → (sma prices w)[i]? = some none) ∧
      (w - 1 ≤ i → (sma prices w)[i]? =
        some (some ((∑ j ∈ Finset.range w, prices.getD (i + 1 - w + j) 0) / (w : ℚ)))) := by
  refine ⟨by simp [sma], fun i hi => ?_⟩
  have hmap : (sma prices w)[i]? =
      some (if w ≤ i + 1 then
        some ((((prices.drop (i + 1 - w)).take w).sum) / (w : ℚ)) else none) := by
    simp [sma, List.getElem?_map, List.getElem?_range, hi]
  constructor
  · intro hlt
    rw [hmap, if_neg (by omega)]
  · intro hge
    rw [hmap, if_pos (by omega), slice_sum prices (i + 1 - w) w (by omega)]

/-- Witness for `sma_spec` at `prices = [1, 2, 4]`, `w = 2`:
entry 0 is `None`, entry 2 is `(2 + 4) / 2 = 3`. -/
theorem sma_spec_witness :
    (sma [(1:ℚ), 2, 4] 2)[0]? = some none ∧
    (sma [(1:ℚ), 2, 4] 2)[2]? =
      some (some ((∑ j ∈ Finset.range 2, ([(1:ℚ), 2, 4]).getD (1 + j) 0) / (2 : ℚ))) := by
  refine ⟨((sma_spec [(1:ℚ), 2, 4] 2 (by norm_num)).2 0 (by norm_num)).1 (by norm_num), ?_⟩
  have h := ((sma_spec [(1:ℚ), 2, 4] 2 (by norm_num)).2 2 (by norm_num)).2 (by norm_num)
  simpa using h

/-- Entry `m ≥ 1` of the `gains` list is the positive part of the price
change at `m`. -/
lemma rsiGains_getD (prices : List ℚ) (m : ℕ) (h1 : 1 ≤ m) (h2 : m < prices.length) :
    (rsiGains prices).getD m 0 = max (prices.getD m 0 - prices.getD (m - 1) 0) 0 := by
  obtain ⟨k, rfl⟩ : ∃ k, m = k + 1 := ⟨m - 1, by omega⟩
  rw [rsiGains, List.getD_cons_succ, List.getD_eq_getElem?_getD]
  simp [List.getElem?_map, List.getElem?_range, (by omega : k < prices.length - 1)]

/-- Entry `m ≥ 1` of the `losses` list is the negative part of the price
change at `m`. -/
lemma rsiLosses_getD (prices : List ℚ) (m : ℕ) (h1 : 1 ≤ m) (h2 : m < prices.length) :
    (rsiLosses prices).getD m 0 = -(min (prices.getD m 0 - prices.getD (m - 1) 0) 0) := by
  obtain ⟨k, rfl⟩ : ∃ k, m = k + 1 := ⟨m - 1, by omega⟩
  rw [rsiLosses, List.getD_cons_succ, List.getD_eq_getElem?_getD]
  simp [List.getElem?_map, List.getElem?_range, (by omega : k < prices.length - 1)]

lemma rsiGains_length (prices : List ℚ) : (rsiGains prices).length = 1 + (prices.length - 1) := by
  simp [rsiGains]
  omega

lemma rsiLosses_length (prices : List ℚ) : (rsiLosses prices).length = 1 + (prices.length - 1) := by
  simp [rsiLosses]
  omega

/-- The slice `gains[i-period+1 : i+1]` of `rsi` sums the positive parts
of the last `period` price changes. -/
lemma rsi_avg_gain (prices : List ℚ) (period i : ℕ) (hp : 1 ≤ period)
    (hpi : period ≤ i) (hil : i < prices.length) :
    (((rsiGains prices).drop (i + 1 - period)).take period).sum
      = ∑ j ∈ Finset.range period,
          max (prices.getD (i + 1 - period + j) 0 - prices.getD (i - period + j) 0) 0 := by
  have hgl : (rsiGains prices).length = prices.length := by
    rw [rsiGains_length]; omega
  rw [slice_sum _ _ _ (by rw [hgl]; omega)]
  refine Finset.sum_congr rfl fun j hj => ?_
  have hj' : j < period := Finset.mem_range.mp hj
  rw [rsiGains_getD prices (i + 1 - period + j) (by omega) (by omega)]
  have hix : i + 1 - period + j - 1 = i - period + j := by omega
  rw [hix]

/-- The slice `losses[i-period+1 : i+1]` of `rsi` sums the negative parts
of the last `period` price changes. -/
lemma rsi_avg_loss (prices : List ℚ) (period i : ℕ) (hp : 1 ≤ period)
    (hpi : period ≤ i) (hil : i < prices.length) :
    (((rsiLosses prices).drop (i + 1 - period)).take period).sum
      = ∑ j ∈ Finset.range period,
          -(min (prices.getD (i + 1 - period + j) 0 - prices.getD (i - period + j) 0) 0) := by
  have hll : (rsiLosses prices).length = prices.length := by
    rw [rsiLosses_length]; omega
  rw [slice_sum _ _ _ (by rw [hll]; omega)]
  refine Finset.sum_congr rfl fun j hj => ?_
  have hj' : j < period := Finset.mem_range.mp hj
  rw [rsiLosses_getD prices (i + 1 - period + j) (by omega) (by omega)]
  have hix : i + 1 - period + j - 1 = i - period + j := by omega
  rw [hix]

/-- C4 (counterexample): `rsi` does not always return a list of the
length of `prices`: on a single price with period 2 it returns the two
leading `None`s, a list of length 2. -/
theorem rsi_length_cx : (rsi [(1:ℚ)] 2).length ≠ [(1:ℚ)].length := by decide

/-- C4 (amended): for `period ≥ 1`, `rsi(prices, period)` returns a list
of length `max period len(prices)` (so of the length of `prices` only
when `len(prices) ≥ period`); its first `period` entries are `None`, and
for `period ≤ i < len(prices)` the `i`-th entry is `100` when the average
loss over the last `period` price changes is zero and
`100 - 100 / (1 + avg_gain / avg_loss)` otherwise, gains and losses being
the positive and negative parts of the successive price differences. -/
theorem rsi_spec (prices : List ℚ) (period : ℕ) (hp : 1 ≤ period) :
    (rsi prices period).length = max period prices.length ∧
    (∀ i, i < period → (rsi prices period)[i]? = some none) ∧
    (∀ i, period ≤ i → i < prices.length →
      (rsi prices period)[i]? =
        some (some (
          if (∑ j ∈ Finset.range period,
                -(min (prices.getD (i + 1 - period + j) 0 - prices.getD (i - period + j) 0) 0))
              / (period : ℚ) = 0 then 100
          else 100 - 100 / (1 +
            ((∑ j ∈ Finset.range period,
                max (prices.getD (i + 1 - period + j) 0 - prices.getD (i - period + j) 0) 0)
              / (period : ℚ)) /
            ((∑ j ∈ Finset.range period,
                -(min (prices.getD (i + 1 - period + j) 0 - prices.getD (i - period + j) 0) 0))
              / (period : ℚ)))))) := by
  refine ⟨?_, fun i hi => ?_, fun i hpi hil => ?_⟩
  · simp only [rsi, List.length_append, List.length_replicate, List.length_map,
      List.length_range]
    omega
  · rw [rsi, List.getElem?_append]
    simp [List.getElem?_replicate, hi]
  · have hsumG := rsi_avg_gain prices period i hp hpi hil
    have hsumL := rsi_avg_loss prices period i hp hpi hil
    have hidx : period + (i - period) + 1 - period = i + 1 - period := by omega
    rw [rsi, List.getElem?_append_right (by simpa using hpi)]
    simp only [List.length_replicate, List.getElem?_map, List.getElem?_range]
    rw [List.getElem?_eq_getElem (by simp [List.length_range]; omega)]
    simp only [List.getElem_range, Option.map_some']
    simp only [hidx, hsumG, hsumL]
    split_ifs <;> rfl

/-- Witness for `rsi_spec` at `prices = [1, 3, 2]`, `period = 2`:
length 3, first two entries `None`. -/
theorem rsi_spec_witness :
    (rsi [(1:ℚ), 3, 2] 2).length = max 2 3 ∧ (rsi [(1:ℚ), 3, 2] 2)[1]? = some none := by
  exact ⟨(rsi_spec [(1:ℚ), 3, 2] 2 (by norm_num)).1,
    (rsi_spec [(1:ℚ), 3, 2] 2 (by norm_num)).2.1 1 (by norm_num)⟩

/-- Looking up after a dict update: the written key reads the new value,
every other key is untouched. -/
lemma dictGet_dictSet (d : List (String × ℚ)) (k a : String) (v : ℚ) :
    dictGet (dictSet d k v) a = if k = a then v else dictGet d a := by
  induction d with
  | nil => simp [dictSet, dictGet]
  | cons hd tl ih =>
    obtain ⟨k1, v1⟩ := hd
    by_cases hk : k1 = k
    · subst hk
      rw [dictSet, if_pos rfl]
      by_cases ha : k1 = a <;> simp [dictGet, ha]
    · rw [dictSet, if_neg hk]
      by_cases ha : k1 = a
      · subst ha
        have hka : ¬ k = k1 := fun hcontra => hk hcontra.symm
        simp [dictGet, hka]
      · simp [dictGet, ha, ih]

/-- C2 (counterexample): a sell of quantity 0 of an asset the portfolio
has never held passes the `holdings.get(asset, 0) < qty` check (0 < 0 is
false), so `execute_order` does not return `False`; it then raises
`KeyError` on `self.holdings[asset] -= qty` instead of returning `True`
and appending a trade. -/
theorem executeOrder_cx :
    ¬ (dictGet Portfolio.init.holdings "AAPL" < 0) ∧
    (Portfolio.init.executeOrder "AAPL" 0 1 "sell" "market").1 = none := by
  decide

/-- C2 (amended): `execute_order` is atomic on failure — an
underfunded buy or an undercovered sell returns `False` with the
portfolio (cash, holdings, trade list, average costs) unchanged — and on
the success paths returns `True` appending exactly one trade record;
for a sell, success additionally requires `asset` to be a key of
`holdings` (otherwise `holdings.get(asset, 0) ≥ qty` forces `qty ≤ 0`
and the statement `self.holdings[asset] -= qty` raises `KeyError`). -/
theorem executeOrder_atomic (p : Portfolio) (asset : String) (qty price : ℚ)
    (ot : String) :
    (p.cash < qty * price →
      p.executeOrder asset qty price "buy" ot = (some false, p)) ∧
    (dictGet p.holdings asset < qty →
      p.executeOrder asset qty price "sell" ot = (some false, p)) ∧
    (qty * price ≤ p.cash →
      (p.executeOrder asset qty price "buy" ot).1 = some true ∧
      (p.executeOrder asset qty price "buy" ot).2.trades
        = p.trades ++ [⟨asset, qty, price, "buy", ot⟩]) ∧
    (qty ≤ dictGet p.holdings asset → hasKey p.holdings asset = true →
      (p.executeOrder asset qty price "sell" ot).1 = some true ∧
      (p.executeOrder asset qty price "sell" ot).2.trades
        = p.trades ++ [⟨asset, qty, price, "sell", ot⟩]) := by
  refine ⟨fun h => ?_, fun h => ?_, fun h => ?_, fun h hk => ?_⟩
  · simp [Portfolio.executeOrder, h]
  · simp [Portfolio.executeOrder, h]
  · constructor <;> simp [Portfolio.executeOrder, not_lt.mpr h]
  · constructor <;> simp [Portfolio.executeOrder, not_lt.mpr h, hk]

/-- Witness for `executeOrder_atomic` on the fresh portfolio: a buy of
1 unit at price 20000 fails and leaves the state unchanged; a buy of
2 units at price 5 succeeds and appends its trade. -/
theorem executeOrder_atomic_witness :
    Portfolio.init.executeOrder "A" 1 20000 "buy" "market" = (some false, Portfolio.init) ∧
    (Portfolio.init.executeOrder "A" 2 5 "buy" "market").1 = some true ∧
    (Portfolio.init.executeOrder "A" 2 5 "buy" "market").2.trades
      = Portfolio.init.trades ++ [⟨"A", 2, 5, "buy", "market"⟩] := by
  exact ⟨(executeOrder_atomic Portfolio.init "A" 1 20000 "market").1 (by norm_num [Portfolio.init]),
    (executeOrder_atomic Portfolio.init "A" 2 5 "market").2.2.1 (by norm_num [Portfolio.init])⟩

/-- A single `execute_order` call with nonnegative quantity and price
preserves nonnegative cash and holdings, whether it returns or raises. -/
lemma executeOrder_inv (p : Portfolio) (asset : String) (qty price : ℚ)
    (side ot : String) (hq : 0 ≤ qty) (hpr : 0 ≤ price)
    (hc : 0 ≤ p.cash) (hh : ∀ a, 0 ≤ dictGet p.holdings a) :
    0 ≤ (p.executeOrder asset qty price side ot).2.cash ∧
    ∀ a, 0 ≤ dictGet (p.executeOrder asset qty price side ot).2.holdings a := by
  simp only [Portfolio.executeOrder]
  split_ifs with hbuy hcash havg hsell hkey hzero
  · exact ⟨hc, hh⟩
  · refine ⟨sub_nonneg.mpr (not_lt.mp hcash), fun a => ?_⟩
    show 0 ≤ dictGet (dictSet p.holdings asset (dictGet p.holdings asset + qty)) a
    rw [dictGet_dictSet]
    split_ifs with ha
    · subst ha
      exact add_nonneg (hh asset) hq
    · exact hh a
  · refine ⟨sub_nonneg.mpr (not_lt.mp hcash), fun a => ?_⟩
    show 0 ≤ dictGet (dictSet p.holdings asset (dictGet p.holdings asset + qty)) a
    rw [dictGet_dictSet]
    split_ifs with ha
    · subst ha
      exact add_nonneg (hh asset) hq
    · exact hh a
  · exact ⟨hc, hh⟩
  · exact ⟨add_nonneg hc (mul_nonneg hq hpr), hh⟩
  · refine ⟨add_nonneg hc (mul_nonneg hq hpr), fun a => ?_⟩
    show 0 ≤ dictGet (dictSet p.holdings asset (dictGet p.holdings asset - qty)) a
    rw [dictGet_dictSet]
    split_ifs with ha
    · subst ha
      simpa using not_lt.mp hsell
    · exact hh a
  · refine ⟨add_nonneg hc (mul_nonneg hq hpr), fun a => ?_⟩
    show 0 ≤ dictGet (dictSet p.holdings asset (dictGet p.holdings asset - qty)) a
    rw [dictGet_dictSet]
    split_ifs with ha
    · subst ha
      simpa using not_lt.mp hsell
    · exact hh a

/-- Sequences of nonnegative orders preserve the invariant. -/
lemma runOrders_inv (orders : List Order) (p : Portfolio)
    (h : ∀ o ∈ orders, 0 ≤ o.qty ∧ 0 ≤ o.price)
    (hc : 0 ≤ p.cash) (hh : ∀ a, 0 ≤ dictGet p.holdings a) :
    0 ≤ (runOrders p orders).cash ∧
    ∀ a, 0 ≤ dictGet (runOrders p orders).holdings a := by
  induction orders generalizing p with
  | nil => exact ⟨hc, hh⟩
  | cons o os ih =>
    have ho := h o (List.mem_cons_self o os)
    have hstep := executeOrder_inv p o.asset o.qty o.price o.side o.order_type
      ho.1 ho.2 hc hh
    rw [runOrders]
    cases hE : p.executeOrder o.asset o.qty o.price o.side o.order_type with
    | mk fst snd =>
      rw [hE] at hstep
      cases fst with
      | none => exact hstep
      | some b => exact ih snd (fun o' ho' => h o' (List.mem_cons_of_mem o ho')) hstep.1 hstep.2

/-- C10: starting from `Portfolio()`, after any sequence of
`execute_order` calls whose quantities and prices are all nonnegative,
cash and every held quantity are still nonnegative (this holds on every
return path and also at the state a `KeyError` leaves behind). -/
theorem portfolio_nonneg (orders : List Order)
    (h : ∀ o ∈ orders, 0 ≤ o.qty ∧ 0 ≤ o.price) :
    0 ≤ (runOrders Portfolio.init orders).cash ∧
    ∀ a, 0 ≤ dictGet (runOrders Portfolio.init orders).holdings a := by
  refine runOrders_inv orders Portfolio.init h (by norm_num [Portfolio.init]) (fun a => ?_)
  simp [Portfolio.init, dictGet]

/-- Witness for `portfolio_nonneg` on a concrete two-order run. -/
theorem portfolio_nonneg_witness :
    0 ≤ (runOrders Portfolio.init
      [⟨"A", 2, 5, "buy", "market"⟩, ⟨"A", 1, 7, "sell", "limit"⟩]).cash ∧
    ∀ a, 0 ≤ dictGet (runOrders Portfolio.init
      [⟨"A", 2, 5, "buy", "market"⟩, ⟨"A", 1, 7, "sell", "limit"⟩]).holdings a := by
  exact portfolio_nonneg _ (by decide)

/-- C6: `input_float` returns the value of the first line that parses as
a float, discarding every earlier non-parseable line; it never returns a
value taken from a non-parseable line. -/
theorem input_float_spec (s : List (Option ℚ)) (i : ℕ) (hi : i < s.length)
    (hv : (s.getD i none).isSome) (hmin : ∀ j, j < i → s.getD j none = none) :
    input_float s = s.getD i none := by
  induction s generalizing i with
  | nil => simp at hi
  | cons a rest ih =>
    cases a with
    | some v =>
      cases i with
      | zero => rfl
      | succ k =>
        have h0 := hmin 0 (by omega)
        simp [List.getD] at h0
    | none =>
      cases i with
      | zero => simp [List.getD] at hv
      | succ k =>
        show input_float rest = (none :: rest).getD (k + 1) none
        rw [List.getD_cons_succ]
        refine ih k (by simpa using hi) (by simpa [List.getD_cons_succ] using hv) ?_
        intro j hj
        have := hmin (j + 1) (by omega)
        simpa [List.getD_cons_succ] using this

/-- Witness for `input_float_spec`: on the stream
`[unparseable, "3"]` the returned value is 3 (the entry at index 1). -/
theorem input_float_spec_witness :
    input_float [none, some 3] = [none, some (3:ℚ)].getD 1 none := by
  refine input_float_spec [none, some 3] 1 (by norm_num) (by simp) ?_
  intro j hj
  have hj0 : j = 0 := by omega
  subst hj0
  rfl

/-- C7: a missing persistence file is treated as no data yet:
`load_portfolio` yields the empty portfolio list and the simulator's
`load` yields a fresh `Portfolio()` — cash 10000, no holdings, no
trades — with no exception (both functions are total). -/
theorem load_missing_file (fs1 : String → Option (List HoldingDict)) (fname1 : String)
    (fs2 : String → Option SimData) (fname2 : String)
    (h1 : fs1 fname1 = none) (h2 : fs2 fname2 = none) :
    load_portfolio fs1 fname1 = [] ∧
    loadSim fs2 fname2 = Portfolio.init ∧
    (loadSim fs2 fname2).cash = 10000 ∧
    (loadSim fs2 fname2).holdings = [] ∧
    (loadSim fs2 fname2).trades = [] := by
  refine ⟨?_, ?_, ?_, ?_, ?_⟩ <;> simp [load_portfolio, loadSim, h1, h2, Portfolio.init]

/-- Witness for `load_missing_file` on the empty file system. -/
theorem load_missing_file_witness :
    load_portfolio (fun _ => none) "portfolio.json" = [] ∧
    loadSim (fun _ => none) "sim_portfolio.json" = Portfolio.init := by
  have h := load_missing_file (fun _ => none) "portfolio.json"
    (fun _ => none) "sim_portfolio.json" rfl rfl
  exact ⟨h.1, h.2.1⟩

/-- C9 (counterexample): the portfolio tracker's save is not independent
of user input — entering `other.json` at the filename prompt writes
there, and `portfolio.json` is not written. -/
theorem save_filename_cx :
    (save_portfolio ["other.json"] (fun _ => none) []).map
      (fun r => (r.2, r.1 "portfolio.json", r.1 "other.json"))
      = some ("other.json", none, some []) := by
  rfl

/-- C9 (amended): each save writes the JSON serialization to a single
file and leaves every other file unchanged; the dividend tracker always
writes its hardcoded `dividends.json`, while the portfolio tracker and
the order simulator use their hardcoded names (`portfolio.json`,
`sim_portfolio.json`) only as defaults — the first input line, when
nonempty after stripping, overrides the filename. -/
theorem save_targets (line : String) (rest : List String)
    (fs1 : String → Option (List HoldingDict)) (pf : List Holding)
    (fs2 : String → Option SimData) (p : Portfolio)
    (fs3 : String → Option (List Dividend)) (ds : List Dividend) :
    (∃ fs', save_portfolio (line :: rest) fs1 pf
        = some (fs', if pyStrip line = "" then "portfolio.json" else pyStrip line) ∧
      fs' (if pyStrip line = "" then "portfolio.json" else pyStrip line)
        = some (pf.map Holding.toDict) ∧
      ∀ k, ¬ k = (if pyStrip line = "" then "portfolio.json" else pyStrip line) →
        fs' k = fs1 k) ∧
    (∃ fs', saveSim (line :: rest) fs2 p
        = some (fs', if pyStrip line = "" then "sim_portfolio.json" else pyStrip line) ∧
      fs' (if pyStrip line = "" then "sim_portfolio.json" else pyStrip line) = some p.toDict ∧
      ∀ k, ¬ k = (if pyStrip line = "" then "sim_portfolio.json" else pyStrip line) →
        fs' k = fs2 k) ∧
    (save_dividends fs3 ds "dividends.json" = some ds ∧
      ∀ k, ¬ k = "dividends.json" → save_dividends fs3 ds k = fs3 k) := by
  refine ⟨⟨_, rfl, by simp, fun k hk => by simp [hk]⟩,
    ⟨_, rfl, by simp, fun k hk => by simp [hk]⟩,
    by simp [save_dividends], fun k hk => by simp [save_dividends, hk]⟩

/-- Witness for `save_targets` at a concrete nonempty filename line. -/
theorem save_targets_witness :
    ∃ fs', save_portfolio ["a.json"] (fun _ => none) []
        = some (fs', if pyStrip "a.json" = "" then "portfolio.json" else pyStrip "a.json") := by
  obtain ⟨⟨fs', hsave, hw, ho⟩, hrest⟩ :=
    save_targets "a.json" [] (fun _ => none) [] (fun _ => none) Portfolio.init
      (fun _ => none) []
  exact ⟨fs', hsave⟩

/-- C8: on an input stream whose first menu choice strips to the exit
option, each `main` prints its banner, the menu and `Goodbye!`, then
terminates normally — no other menu action runs (the trace holds no other
event, the portfolio and price state are never touched) and the rest of
the stream is never read.  Exit options: `6` for the order execution
simulator, `7` for the technical indicators calculator. -/
theorem main_goodbye (parseF1 parseF2 : String → Option ℚ) (parseI : String → Option ℤ)
    (c1 c2 : String) (rest1 rest2 : List String)
    (fs : String → Option SimData) (fscsv : String → Option (List (List String)))
    (h1 : pyStrip c1 = "6") (h2 : pyStrip c2 = "7") :
    simMain parseF1 (c1 :: rest1) fs
      = some [Msg.welcome, Msg.menu, Msg.line "Goodbye!"] ∧
    tiMain parseF2 parseI (c2 :: rest2) fscsv
      = some [Msg.welcome, Msg.menu, Msg.line "Goodbye!"] := by
  constructor
  · show simMainLoop parseF1 ((c1 :: rest1).length + 1) (c1 :: rest1) fs
      Portfolio.init [Msg.welcome] = _
    rw [List.length_cons]
    simp only [simMainLoop, h1]
    simp
  · show tiMainLoop parseF2 parseI ((c2 :: rest2).length + 1) (c2 :: rest2) fscsv
      [] [Msg.welcome] = _
    rw [List.length_cons]
    simp only [tiMainLoop, h2]
    simp

/-- Witness for `main_goodbye`: the canned stdin of the smoke tests
(a single `6`, resp. `7`). -/
theorem main_goodbye_witness :
    simMain (fun _ => none) ["6"] (fun _ => none)
      = some [Msg.welcome, Msg.menu, Msg.line "Goodbye!"] ∧
    tiMain (fun _ => none) (fun _ => none) ["7"] (fun _ => none)
      = some [Msg.welcome, Msg.menu, Msg.line "Goodbye!"] := by
  exact main_goodbye (fun _ => none) (fun _ => none) (fun _ => none)
    "6" "7" [] [] (fun _ => none) (fun _ => none) rfl rfl

/-- `d1` of the Black-Scholes formula, as a total real function (the value
`black_scholes_price` computes when no operation raises). -/
noncomputable def bsD1 (S K T r sigma : ℝ) : ℝ :=
  (Real.log (S / K) + (r + 0.5 * sigma ^ 2) * T) / (sigma * Real.sqrt T)

/-- `d2 = d1 - sigma * sqrt T`. -/
noncomputable def bsD2 (S K T r sigma : ℝ) : ℝ :=
  bsD1 S K T r sigma - sigma * Real.sqrt T

/-- The error function is odd. -/
lemma erf_neg (x : ℝ) : erf (-x) = - erf x := by
  have key : (∫ t in (0:ℝ)..(-x), Real.exp (-t ^ 2))
      = - ∫ t in (0:ℝ)..x, Real.exp (-t ^ 2) := by
    rw [intervalIntegral.integral_symm]
    have h2 : (∫ t in (0:ℝ)..x, Real.exp (-(-t) ^ 2))
        = ∫ t in (-x)..(-(0:ℝ)), Real.exp (-t ^ 2) :=
      intervalIntegral.integral_comp_neg (fun t : ℝ => Real.exp (-t ^ 2))
    simp only [neg_sq, neg_zero] at h2
    rw [← h2]
  unfold erf
  rw [key]
  ring

/-- `norm_cdf x + norm_cdf (-x) = 1`: the two tails of the standard
normal distribution are complementary. -/
lemma norm_cdf_add_neg (x : ℝ) : norm_cdf x + norm_cdf (-x) = 1 := by
  unfold norm_cdf
  rw [neg_div, erf_neg]
  ring

/-- On the domain `K ≠ 0`, `S / K > 0`, `T > 0`, `sigma ≠ 0`, no
operation of `black_scholes_price` raises, and the returned triple is
`(price, d1, d2)` with the closed-form `d1`, `d2`. -/
lemma black_scholes_price_eq (S K T r sigma : ℝ) (ot : String)
    (hK : K ≠ 0) (hR : 0 < S / K) (hT : 0 < T) (hs : sigma ≠ 0) :
    black_scholes_price S K T r sigma ot
      = some (if ot = "call" then
            S * norm_cdf (bsD1 S K T r sigma)
              - K * Real.exp (-r * T) * norm_cdf (bsD2 S K T r sigma)
          else
            K * Real.exp (-r * T) * norm_cdf (-bsD2 S K T r sigma)
              - S * norm_cdf (-bsD1 S K T r sigma),
          bsD1 S K T r sigma, bsD2 S K T r sigma) := by
  have hratio : pyDiv S K = some (S / K) := by
    simp only [pyDiv]
    rw [if_neg hK]
  have hlog : pyLog (S / K) = some (Real.log (S / K)) := by
    simp only [pyLog]
    rw [if_neg (not_le.mpr hR)]
  have hsq : pySqrt T = some (Real.sqrt T) := by
    simp only [pySqrt]
    rw [if_neg (not_lt.mpr hT.le)]
  have hden : sigma * Real.sqrt T ≠ 0 :=
    mul_ne_zero hs (Real.sqrt_pos.mpr hT).ne'
  have hd1 : pyDiv (Real.log (S / K) + (r + 0.5 * sigma ^ 2) * T) (sigma * Real.sqrt T)
      = some (bsD1 S K T r sigma) := by
    simp only [pyDiv]
    rw [if_neg hden]
    rfl
  rw [black_scholes_price, hratio]
  simp only [Option.some_bind]
  rw [hlog]
  simp only [Option.some_bind]
  rw [hsq]
  simp only [Option.some_bind]
  rw [hd1]
  simp only [Option.some_bind]
  rfl

/-- C1 (counterexample): `input_float` accepts `T = 0`, on which
`black_scholes_price` divides by `sigma * math.sqrt(0) = 0` and raises
`ZeroDivisionError` (and `black_scholes_greeks`, which calls it,
propagates the exception). -/
theorem bs_undefined_cx :
    black_scholes_price 100 100 0 (1 / 100) (1 / 5) "call" = none ∧
    black_scholes_greeks 100 100 0 (1 / 100) (1 / 5) "call" = none := by
  have h1 : pyDiv (100:ℝ) 100 = some 1 := by
    simp only [pyDiv]
    rw [if_neg (by norm_num)]
    norm_num
  have h2 : pyLog (1:ℝ) = some 0 := by
    simp only [pyLog]
    rw [if_neg (by norm_num)]
    simp
  have h3 : pySqrt (0:ℝ) = some 0 := by
    simp only [pySqrt]
    rw [if_neg (by norm_num)]
    simp
  have hp : black_scholes_price 100 100 0 (1 / 100) (1 / 5) "call" = none := by
    rw [black_scholes_price, h1]
    simp only [Option.some_bind]
    rw [h2]
    simp only [Option.some_bind]
    rw [h3]
    simp only [Option.some_bind]
    simp [pyDiv]
  exact ⟨hp, by rw [black_scholes_greeks, hp]; rfl⟩

/-- Outside the domain `K ≠ 0`, `S / K > 0`, `T > 0`, `sigma ≠ 0`, the
first failing operation of `black_scholes_price` raises: `S / K` for
`K = 0`, `math.log` for `S / K ≤ 0`, `math.sqrt` for `T < 0`, and the
division by `sigma * math.sqrt(T)` for `T = 0` or `sigma = 0`. -/
lemma black_scholes_price_of_not (S K T r sigma : ℝ) (ot : String)
    (h : ¬ (K ≠ 0 ∧ 0 < S / K ∧ 0 < T ∧ sigma ≠ 0)) :
    black_scholes_price S K T r sigma ot = none := by
  by_cases hK : K = 0
  · simp [black_scholes_price, pyDiv, hK]
  · by_cases hR : 0 < S / K
    · by_cases hT : 0 < T
      · by_cases hs : sigma = 0
        · simp [black_scholes_price, pyDiv, pyLog, pySqrt, hK, not_le.mpr hR,
            not_lt.mpr hT.le, hs]
        · exact absurd ⟨hK, hR, hT, hs⟩ h
      · rcases (not_lt.mp hT).lt_or_eq with hT' | hT'
        · simp [black_scholes_price, pyDiv, pyLog, pySqrt, hK, not_le.mpr hR, hT']
        · subst hT'
          simp [black_scholes_price, pyDiv, pyLog, pySqrt, hK, not_le.mpr hR,
            Real.sqrt_zero]
    · simp [black_scholes_price, pyDiv, pyLog, hK, not_lt.mp hR]

/-- C1 (amended): `input_float` accepts any float, but
`black_scholes_price` and `black_scholes_greeks` evaluate without
raising exactly on the parameters with `K ≠ 0`, `S / K > 0`, `T > 0`
and `sigma ≠ 0`; every validated input outside this domain (e.g.
`T = 0`) makes the arithmetic raise. -/
theorem bs_defined (S K T r sigma : ℝ) (ot : String) :
    ((black_scholes_price S K T r sigma ot).isSome = true
      ↔ K ≠ 0 ∧ 0 < S / K ∧ 0 < T ∧ sigma ≠ 0) ∧
    ((black_scholes_greeks S K T r sigma ot).isSome = true
      ↔ K ≠ 0 ∧ 0 < S / K ∧ 0 < T ∧ sigma ≠ 0) := by
  have hmpr : K ≠ 0 ∧ 0 < S / K ∧ 0 < T ∧ sigma ≠ 0 →
      (black_scholes_greeks S K T r sigma ot).isSome = true := by
    rintro ⟨hK, hR, hT, hs⟩
    have hpr := black_scholes_price_eq S K T r sigma ot hK hR hT hs
    have hS0 : S ≠ 0 := by
      intro h0
      rw [h0, zero_div] at hR
      exact lt_irrefl 0 hR
    have hsqne : Real.sqrt T ≠ 0 := (Real.sqrt_pos.mpr hT).ne'
    have hsq : pySqrt T = some (Real.sqrt T) := by
      simp only [pySqrt]
      rw [if_neg (not_lt.mpr hT.le)]
    rw [black_scholes_greeks, hpr]
    simp only [Option.some_bind]
    rw [hsq]
    simp only [Option.some_bind, pyDiv]
    rw [if_neg (mul_ne_zero two_ne_zero hsqne)]
    simp only [Option.some_bind]
    rw [if_neg (mul_ne_zero (mul_ne_zero hS0 hs) hsqne)]
    simp only [Option.some_bind]
    split_ifs <;> rfl
  refine ⟨⟨fun h => ?_, fun h => ?_⟩, ⟨fun h => ?_, hmpr⟩⟩
  · by_contra hnot
    rw [black_scholes_price_of_not S K T r sigma ot hnot] at h
    simp at h
  · obtain ⟨hK, hR, hT, hs⟩ := h
    rw [black_scholes_price_eq S K T r sigma ot hK hR hT hs]
    rfl
  · by_contra hnot
    rw [black_scholes_greeks, black_scholes_price_of_not S K T r sigma ot hnot] at h
    simp at h

/-- Witness for `bs_defined`: `S = K = -1`, `T = sigma = 1`, `r = 0`
passes the domain test (`S / K = 1 > 0`), so the greeks evaluate. -/
theorem bs_defined_witness :
    (black_scholes_greeks (-1) (-1) 1 0 1 "call").isSome = true :=
  ((bs_defined (-1) (-1) 1 0 1 "call").2).mpr (by norm_num)

/-- C5: put-call parity of the transcribed closed-form formula over the
reals: for positive `S`, `K`, `T`, `sigma`, both prices are defined and
`call - put = S - K * exp (-r * T)`. -/
theorem put_call_parity (S K T r sigma : ℝ)
    (hS : 0 < S) (hK : 0 < K) (hT : 0 < T) (hs : 0 < sigma) :
    ∃ c p d1 d2 e1 e2,
      black_scholes_price S K T r sigma "call" = some (c, d1, d2) ∧
      black_scholes_price S K T r sigma "put" = some (p, e1, e2) ∧
      c - p = S - K * Real.exp (-r * T) := by
  refine ⟨_, _, _, _, _, _,
    black_scholes_price_eq S K T r sigma "call" hK.ne' (div_pos hS hK) hT hs.ne',
    black_scholes_price_eq S K T r sigma "put" hK.ne' (div_pos hS hK) hT hs.ne', ?_⟩
  rw [if_pos rfl, if_neg (by decide : ¬ ("put" : String) = "call")]
  have h1 := norm_cdf_add_neg (bsD1 S K T r sigma)
  have h2 := norm_cdf_add_neg (bsD2 S K T r sigma)
  linear_combination S * h1 - K * Real.exp (-r * T) * h2

/-- Witness for `put_call_parity` at `S = K = T = sigma = 1`, `r = 0`. -/
theorem put_call_parity_witness :
    ∃ c p d1 d2 e1 e2,
      black_scholes_price 1 1 1 0 1 "call" = some (c, d1, d2) ∧
      black_scholes_price 1 1 1 0 1 "put" = some (p, e1, e2) ∧
      c - p = 1 - 1 * Real.exp (-0 * 1) :=
  put_call_parity 1 1 1 0 1 (by norm_num) (by norm_num) (by norm_num) (by norm_num)
